import Mathlib

/-!
Verification of the line-to-series extraction pipeline of dataplot.py.

The embedding models the core pipeline of the script: per-line column
mapping and rejection (main loop, lines 127-145 of the source), the
per-file series aggregation, the post-processing transforms (sort and
calcHistogram), the statistics report, and the parsing of the Y column
specifications.  Numeric values are modelled as rationals; a Python
float value extracted from a line is a field of `Line`.  Python
exceptions (IndexError, ValueError, ZeroDivisionError) are modelled by
an `Except Err` result: an `Except.error` result corresponds to the
script aborting with an uncaught exception and a non-zero exit code.
Stdout writes are modelled as a list of `Out` events appended to the
global state in program order.  The regex line filter and the token
extraction regex are upstream of the modelled pipeline: a `Line` holds
the already extracted numeric tokens of one line that survived the
filter, together with the raw text of the line.
-/

deriving instance DecidableEq for Except

namespace Dataplot

/-- Python exceptions that the modelled code can raise. -/
inductive Err where
  | indexError
  | valueError
  | zeroDivisionError
  deriving DecidableEq, Repr

/-- Stdout events, in program order.  `dump` models the verbose token
dump, `skip` models the message about an ignored short line, `echo`
models `sys.stdout.write(line)` for the print-high option, and `stats`
models the final sum/average report. -/
inductive Out where
  | dump (data : List ℚ)
  | skip (raw : String)
  | echo (raw : String)
  | stats (sum avg : ℚ)
  deriving DecidableEq, Repr

/-- One input line after the regex filter: its raw text and the numeric
tokens extracted from it by the num-regex, already converted to numbers
(a token whose float conversion would fail makes the script abort; such
lines are outside the modelled runs). -/
structure Line where
  raw : String
  data : List ℚ
  deriving DecidableEq, Repr

/-- The configuration options of the script that the modelled pipeline
reads, with the field names of the Python options object. -/
structure Options where
  xcol : Int
  ycol : List Int
  xdiv : ℚ
  sort : Bool
  hist : ℚ
  print_high : ℚ
  print_stats : Bool
  verbose : Nat
  deriving DecidableEq, Repr

/-- Process-wide mutable state: the running index of accepted records,
the running sum of all accepted Y values, and the stdout log. -/
structure Global where
  index : Nat
  total_y : ℚ
  out : List Out
  deriving DecidableEq, Repr

/-- The initial process-wide state (index = 0, total_y = 0). -/
def initGlobal : Global := { index := 0, total_y := 0, out := [] }

/-- Per-file aggregation state: the shared X list `xx` and one Y list
per configured Y column, as in the source.  The X values are stored
once and shared by all Y columns of the file. -/
structure FileState where
  xx : List ℚ
  yy : List (List ℚ)
  deriving DecidableEq, Repr

/-- Python list indexing `l[i]`: a nonnegative index counts from the
front, a negative index counts from the back, and an index out of
range yields `none` (an IndexError in Python). -/
def pyGet (l : List ℚ) (i : Int) : Option ℚ :=
  if 0 ≤ i then l.get? i.toNat
  else
    let j : Int := (l.length : Int) + i
    if 0 ≤ j then l.get? j.toNat else none

/-- The inner Y loop of the main per-line loop (source lines 139-144):
for each Y column, read the token at that column, echo the raw line if
the print-high option is set and the value reaches it, append the value
to that column's series, and add it to the running Y sum.  The columns
are traversed in declaration order together with their series lists;
a missing token is an IndexError. -/
def processCols (opts : Options) (data : List ℚ) (raw : String) :
    List Int → List (List ℚ) → Except Err (List (List ℚ) × ℚ × List Out)
  | _, [] => .ok ([], 0, [])
  | [], _ :: _ => .error Err.indexError
  | yc :: ycs, ys :: yss =>
    match pyGet data yc with
    | none => .error Err.indexError
    | some y =>
      let e : List Out :=
        if opts.print_high ≠ 0 ∧ opts.print_high ≤ y then [Out.echo raw] else []
      match processCols opts data raw ycs yss with
      | .error err => .error err
      | .ok (yss2, t, outs) => .ok ((ys ++ [y]) :: yss2, y + t, e ++ outs)

/-- One iteration of the main per-line loop (source lines 127-145).
The verbose token dump comes first; then the short-line test
`options.xcol >= len(data) or max(options.ycol) > len(data)` with
Python short-circuit evaluation (note the strict `>` on the Y side);
a rejected line prints the skip message and changes nothing else.
An accepted line computes X (the running index when xcol is negative,
the token at xcol otherwise) divided by xdiv, appends it to `xx`, runs
the Y loop, and advances the running index by one. -/
def processLine (opts : Options) (g : Global) (fs : FileState) (ln : Line) :
    Except Err (Global × FileState) :=
  let data := ln.data
  let dumpOut : List Out := if 2 ≤ opts.verbose then [Out.dump data] else []
  if (data.length : Int) ≤ opts.xcol then
    .ok ({ g with out := g.out ++ dumpOut ++ [Out.skip ln.raw] }, fs)
  else
    match opts.ycol.max? with
    | none => .error Err.valueError
    | some m =>
      if (data.length : Int) < m then
        .ok ({ g with out := g.out ++ dumpOut ++ [Out.skip ln.raw] }, fs)
      else
        match (if 0 ≤ opts.xcol then pyGet data opts.xcol else some ((g.index : ℚ))) with
        | none => .error Err.indexError
        | some x0 =>
          if opts.xdiv = 0 then .error Err.zeroDivisionError
          else
            match processCols opts data ln.raw opts.ycol fs.yy with
            | .error err => .error err
            | .ok (yy2, dt, echoes) =>
              .ok ({ index := g.index + 1,
                     total_y := g.total_y + dt,
                     out := g.out ++ dumpOut ++ echoes },
                   { xx := fs.xx ++ [x0 / opts.xdiv], yy := yy2 })

/-- The per-file line loop: process the filtered lines of one file in
order, threading the global and per-file state. -/
def processFileLines (opts : Options) :
    List Line → Global → FileState → Except Err (Global × FileState)
  | [], g, fs => .ok (g, fs)
  | ln :: rest, g, fs =>
    match processLine opts g fs ln with
    | .error e => .error e
    | .ok (g2, fs2) => processFileLines opts rest g2 fs2

/-- The empty per-file state created at the start of each file: an
empty X list and one empty Y list per configured Y column. -/
def initFS (opts : Options) : FileState :=
  { xx := [], yy := opts.ycol.map (fun _ => ([] : List ℚ)) }

/-- The outer file loop: each file starts from a fresh per-file state
while the global state (running index, Y sum, stdout) is threaded
through unchanged between files.  Returns the final global state and
the final per-file states in file order. -/
def processFiles (opts : Options) :
    List (List Line) → Global → Except Err (Global × List FileState)
  | [], g => .ok (g, [])
  | f :: rest, g =>
    match processFileLines opts f g (initFS opts) with
    | .error e => .error e
    | .ok (g2, fs) =>
      match processFiles opts rest g2 with
      | .error e => .error e
      | .ok (g3, fss) => .ok (g3, fs :: fss)

/-- One step of building the Python histogram dict: increment the count
of key `k`, or append `(k, 1)` at the end if `k` is a new key, as a
Python dict keeps insertion order. -/
def dictIncr : List (Int × Nat) → Int → List (Int × Nat)
  | [], k => [(k, 1)]
  | (k', v) :: rest, k =>
    if k' = k then (k', v + 1) :: rest else (k', v) :: dictIncr rest k

/-- Lookup of a key in an association list, the first matching entry.
Specification device for reasoning about the histogram dict. -/
def alookup : List (Int × Nat) → Int → Option Nat
  | [], _ => none
  | (k, v) :: rest, j => if k = j then some v else alookup rest j

/-- Comparison of histogram dict entries by key.  The keys of the dict
are pairwise distinct, so sorting the entries by key coincides with the
lexicographic tuple order used by the Python sorted builtin. -/
def keyLE (a b : Int × Nat) : Prop := a.1 ≤ b.1

instance : DecidableRel keyLE := fun a b => Int.decLe a.1 b.1

instance : IsTotal (Int × Nat) keyLE := ⟨fun a b => Int.le_total a.1 b.1⟩

instance : IsTrans (Int × Nat) keyLE := ⟨fun _ _ _ h1 h2 => le_trans h1 h2⟩

/-- The calcHistogram function of the source (lines 24-40): map every
value to its bin `y // binsize` (float floor division, the floor of the
exact quotient), count occurrences per bin in a dict, then emit the
entries sorted by bin as the pair of the bin start list and the count
list. -/
def calcHistogram (yy : List ℚ) (binsize : ℚ) : List ℚ × List Nat :=
  let hist := (yy.map (fun y => ⌊y / binsize⌋)).foldl dictIncr []
  let s := List.insertionSort keyLE hist
  (s.map (fun p => (p.1 : ℚ) * binsize), s.map (fun p => p.2))

/-- One plotted series: its legend label and its X and Y value lists.
Colors, shapes and the style suffix are rendering directives for the
external plotting collaborator and are not modelled. -/
structure Series where
  label : String
  xs : List ℚ
  ys : List ℚ
  deriving DecidableEq, Repr

/-- Decimal rendering of an integer, as the Python format builtin
renders an int. -/
def natDigits : Nat → Nat → List Char
  | 0, _ => []
  | fuel + 1, n =>
    if n < 10 then [Char.ofNat (48 + n)]
    else natDigits fuel (n / 10) ++ [Char.ofNat (48 + n % 10)]

/-- Decimal rendering of an Int, as the Python format builtin renders
an int. -/
def intStr (i : Int) : String :=
  match i with
  | .ofNat n => String.mk (natDigits (n + 1) n)
  | .negSucc m => String.mk ('-' :: natDigits (m + 2) (m + 1))

/-- The per-file series construction loop (source lines 147-164):
for each Y column in order, optionally sort the Y values, optionally
replace the data by its histogram when the configured bin width is
positive, and label the series with the file name, plus the column
name when there are several columns or the name differs from the
numeric index.  `n` is the total number of Y columns of the file.
Running out of column names or indices is an IndexError. -/
def makeSeriesAux (opts : Options) (infile : String) (n : Nat) (xx : List ℚ) :
    List (List ℚ) → List String → List Int → Except Err (List Series)
  | [], _, _ => .ok []
  | ys :: yss, name :: names, yc :: ycs =>
    let yyplot := if opts.sort then List.insertionSort (· ≤ ·) ys else ys
    let p : List ℚ × List ℚ :=
      if 0 < opts.hist then
        let h := calcHistogram yyplot opts.hist
        (h.1, h.2.map (fun c => (c : ℚ)))
      else (xx, yyplot)
    let label := if 1 < n ∨ name ≠ intStr yc then infile ++ "/" ++ name else infile
    match makeSeriesAux opts infile n xx yss names ycs with
    | .error e => .error e
    | .ok ss => .ok ({ label := label, xs := p.1, ys := p.2 } :: ss)
  | _ :: _, _, _ => .error Err.indexError

/-- Series construction over all files, pairing each file name with its
final per-file state. -/
def mkAllSeries (opts : Options) (names : List String) :
    List String → List FileState → Except Err (List Series)
  | [], [] => .ok []
  | fname :: fnames, fs :: fss =>
    match makeSeriesAux opts fname fs.yy.length fs.xx fs.yy names opts.ycol with
    | .error e => .error e
    | .ok ss =>
      match mkAllSeries opts names fnames fss with
      | .error e => .error e
      | .ok ss2 => .ok (ss ++ ss2)
  | _, _ => .error Err.indexError

/-- The statistics report (source lines 175-176): when enabled, print
the total Y sum and its quotient by the running index.  A run with zero
accepted records divides zero by zero, a Python ZeroDivisionError. -/
def statsStep (opts : Options) (g : Global) : Except Err (List Out) :=
  if opts.print_stats then
    if g.index = 0 then .error Err.zeroDivisionError
    else .ok [Out.stats g.total_y (g.total_y / (g.index : ℚ))]
  else .ok []

/-- The modelled run of the script on already filtered and tokenized
input: process all files, build all series, then report statistics.
In the source the series of a file are built right after its lines are
processed; series construction is pure and reads no global state, so
running it after all files are processed produces the same result.
The saved image is the external renderer applied to the returned
series and is not modelled. -/
def runMain (opts : Options) (names : List String)
    (files : List (String × List Line)) :
    Except Err (List Series × Global × List Out) :=
  match processFiles opts (files.map Prod.snd) initGlobal with
  | .error e => .error e
  | .ok (g, fss) =>
    match mkAllSeries opts names (files.map Prod.fst) fss with
    | .error e => .error e
    | .ok ss =>
      match statsStep opts g with
      | .error e => .error e
      | .ok souts => .ok (ss, g, g.out ++ souts)

/-- Split a string at the first occurrence of the separator character,
as the Python call split(sep, 1): `none` when the separator does not
occur. -/
def splitFirst (sep : Char) : List Char → Option (List Char × List Char)
  | [] => none
  | c :: rest =>
    if c = sep then some ([], rest)
    else
      match splitFirst sep rest with
      | none => none
      | some (a, b) => some (c :: a, b)

/-- Decimal digit accumulation for the Python int builtin. -/
def pyIntDigits : List Char → Nat → Option Nat
  | [], acc => some acc
  | c :: rest, acc =>
    if c.isDigit then pyIntDigits rest (acc * 10 + (c.toNat - 48)) else none

/-- The Python int builtin on a string: an optional sign followed by at
least one decimal digit; anything else is a ValueError. -/
def pyInt (s : String) : Except Err Int :=
  let core : List Char → Except Err Int := fun cs =>
    match cs with
    | [] => .error Err.valueError
    | _ =>
      match pyIntDigits cs 0 with
      | some n => .ok (n : Int)
      | none => .error Err.valueError
  match s.data with
  | '-' :: rest =>
    match core rest with
    | .ok n => .ok (-n)
    | .error e => .error e
  | '+' :: rest => core rest
  | cs => core cs

/-- The Y column spec parsing loop (source lines 100-107): a spec
without an equals sign is both the display name and the numeric index;
a spec of the form name=index has an explicit display name. -/
def parseYcolsAux : List String → Except Err (List String × List Int)
  | [] => .ok ([], [])
  | s :: rest =>
    let fields : String × String :=
      match splitFirst '=' s.data with
      | none => (s, s)
      | some (a, b) => (String.mk a, String.mk b)
    match pyInt fields.2 with
    | .error e => .error e
    | .ok col =>
      match parseYcolsAux rest with
      | .error e => .error e
      | .ok (names, cols) => .ok (fields.1 :: names, col :: cols)

/-- Y column spec parsing including the default (source lines 98-99):
an empty option list defaults to the single spec "0". -/
def parseYcols (ycol : List String) : Except Err (List String × List Int) :=
  parseYcolsAux (if ycol = [] then ["0"] else ycol)

/-- Total of all Y values stored in a list of series lists. -/
def ySum (yy : List (List ℚ)) : ℚ := (yy.map List.sum).sum

/-- All series for one file have the length of the shared X list. -/
def seriesInv (fs : FileState) : Prop := ∀ ys ∈ fs.yy, ys.length = fs.xx.length

/-- Concrete fixture: options with the given X column, Y columns, X
divisor, histogram bin width, print-high threshold and statistics
toggle; sorting off, verbosity 0. -/
def mkOpts (xc : Int) (yc : List Int) (xd : ℚ) (hi : ℚ) (ph : ℚ) (ps : Bool) :
    Options :=
  { xcol := xc, ycol := yc, xdiv := xd, sort := false, hist := hi,
    print_high := ph, print_stats := ps, verbose := 0 }

/-- Concrete fixture: a line with one token per given value. -/
def mkLine (raw : String) (data : List ℚ) : Line := { raw := raw, data := data }

lemma processCols_nil_right (opts : Options) (data : List ℚ) (raw : String)
    (ycs : List Int) : processCols opts data raw ycs [] = .ok ([], 0, []) := by
  cases ycs <;> rfl

lemma processCols_spec (opts : Options) (data : List ℚ) (raw : String) :
    ∀ (yss : List (List ℚ)) (ycs : List Int) (yss2 : List (List ℚ)) (t : ℚ)
      (outs : List Out),
      processCols opts data raw ycs yss = .ok (yss2, t, outs) →
      yss2.length = yss.length
      ∧ (∀ ys2 ∈ yss2, ∃ ys ∈ yss, ∃ y, ys2 = ys ++ [y])
      ∧ ySum yss2 = ySum yss + t
  | [], ycs, yss2, t, outs, h => by
    rw [processCols_nil_right] at h
    cases h
    simp [ySum]
  | ys :: yss, [], yss2, t, outs, h => by
    simp [processCols] at h
  | ys :: yss, yc :: ycs, yss2, t, outs, h => by
    simp only [processCols] at h
    cases hg : pyGet data yc with
    | none => simp only [hg] at h; exact Except.noConfusion h
    | some y =>
      simp only [hg] at h
      cases hr : processCols opts data raw ycs yss with
      | error e => simp only [hr] at h; exact Except.noConfusion h
      | ok r =>
        obtain ⟨a, b, c⟩ := r
        simp only [hr, Except.ok.injEq, Prod.mk.injEq] at h
        obtain ⟨rfl, rfl, rfl⟩ := h
        obtain ⟨h1, h2, h3⟩ := processCols_spec opts data raw yss ycs a b c hr
        refine ⟨by simp [h1], ?_, ?_⟩
        · intro ys2 hys2
          rcases List.mem_cons.1 hys2 with rfl | hmem
          · exact ⟨ys, List.mem_cons_self _ _, y, rfl⟩
          · obtain ⟨ys', hys', y', rfl⟩ := h2 ys2 hmem
            exact ⟨ys', List.mem_cons_of_mem _ hys', y', rfl⟩
        · simp only [ySum, List.map_cons, List.sum_cons, List.sum_append,
            List.sum_nil] at h3 ⊢
          rw [h3]
          ring

lemma processCols_outs (opts : Options) (data : List ℚ) (raw : String) :
    ∀ (yss : List (List ℚ)) (ycs : List Int) (yss2 : List (List ℚ)) (t : ℚ)
      (outs : List Out),
      ycs.length = yss.length →
      processCols opts data raw ycs yss = .ok (yss2, t, outs) →
      outs = List.replicate
        ((ycs.filterMap (pyGet data)).countP
          (fun y => decide (opts.print_high ≠ 0 ∧ opts.print_high ≤ y)))
        (Out.echo raw)
  | [], ycs, yss2, t, outs, hlen, h => by
    rw [processCols_nil_right] at h
    cases h
    rw [List.length_nil, List.length_eq_zero] at hlen
    subst hlen
    simp
  | ys :: yss, [], yss2, t, outs, hlen, h => by
    simp at hlen
  | ys :: yss, yc :: ycs, yss2, t, outs, hlen, h => by
    simp only [processCols] at h
    cases hg : pyGet data yc with
    | none => simp only [hg] at h; exact Except.noConfusion h
    | some y =>
      simp only [hg] at h
      cases hr : processCols opts data raw ycs yss with
      | error e => simp only [hr] at h; exact Except.noConfusion h
      | ok r =>
        obtain ⟨a, b, c⟩ := r
        simp only [hr, Except.ok.injEq, Prod.mk.injEq] at h
        obtain ⟨rfl, rfl, rfl⟩ := h
        have hlen2 : ycs.length = yss.length := by
          simpa using hlen
        have hc := processCols_outs opts data raw yss ycs a b c hlen2 hr
        rw [List.filterMap_cons, hg, List.countP_cons]
        by_cases hcond : opts.print_high ≠ 0 ∧ opts.print_high ≤ y
        · simp only [hcond, if_pos, decide_eq_true_eq, if_true]
          rw [hc]
          simp [List.replicate_succ, hcond]
        · simp only [hcond, if_neg, decide_eq_true_eq, if_false]
          rw [hc]
          simp [hcond]

lemma processLine_cases (opts : Options) (g : Global) (fs : FileState)
    (ln : Line) (g' : Global) (fs' : FileState)
    (h : processLine opts g fs ln = .ok (g', fs')) :
    (g'.index = g.index ∧ g'.total_y = g.total_y ∧ fs' = fs
       ∧ g'.out = g.out ++ (if 2 ≤ opts.verbose then [Out.dump ln.data] else [])
           ++ [Out.skip ln.raw])
    ∨ (∃ x0 dt echoes yy2,
       (if 0 ≤ opts.xcol then pyGet ln.data opts.xcol else some ((g.index : ℚ)))
          = some x0
       ∧ ¬ opts.xdiv = 0
       ∧ processCols opts ln.data ln.raw opts.ycol fs.yy = .ok (yy2, dt, echoes)
       ∧ g' = { index := g.index + 1, total_y := g.total_y + dt,
                out := g.out ++ (if 2 ≤ opts.verbose then [Out.dump ln.data] else [])
                  ++ echoes }
       ∧ fs' = { xx := fs.xx ++ [x0 / opts.xdiv], yy := yy2 }) := by
  simp only [processLine] at h
  by_cases h1 : ((ln.data.length : Int) ≤ opts.xcol)
  · rw [if_pos h1] at h
    obtain ⟨rfl, rfl⟩ : ({ g with out := g.out
        ++ (if 2 ≤ opts.verbose then [Out.dump ln.data] else [])
        ++ [Out.skip ln.raw] }, fs) = (g', fs') := by
      simpa using h
    exact Or.inl ⟨rfl, rfl, rfl, rfl⟩
  · rw [if_neg h1] at h
    cases hm : opts.ycol.max? with
    | none => simp only [hm] at h; exact Except.noConfusion h
    | some m =>
      simp only [hm] at h
      by_cases h2 : ((ln.data.length : Int) < m)
      · rw [if_pos h2] at h
        obtain ⟨rfl, rfl⟩ : ({ g with out := g.out
            ++ (if 2 ≤ opts.verbose then [Out.dump ln.data] else [])
            ++ [Out.skip ln.raw] }, fs) = (g', fs') := by
          simpa using h
        exact Or.inl ⟨rfl, rfl, rfl, rfl⟩
      · rw [if_neg h2] at h
        cases hx : (if 0 ≤ opts.xcol then pyGet ln.data opts.xcol
            else some ((g.index : ℚ))) with
        | none => simp only [hx] at h; exact Except.noConfusion h
        | some x0 =>
          simp only [hx] at h
          by_cases hd : opts.xdiv = 0
          · rw [if_pos hd] at h; exact Except.noConfusion h
          · rw [if_neg hd] at h
            cases hr : processCols opts ln.data ln.raw opts.ycol fs.yy with
            | error e => simp only [hr] at h; exact Except.noConfusion h
            | ok r =>
              obtain ⟨yy2, dt, echoes⟩ := r
              simp only [hr, Except.ok.injEq, Prod.mk.injEq] at h
              obtain ⟨rfl, rfl⟩ := h
              exact Or.inr ⟨x0, dt, echoes, yy2, rfl, hd, rfl, rfl, rfl⟩

lemma processLine_inv (opts : Options) (g : Global) (fs : FileState)
    (ln : Line) (g' : Global) (fs' : FileState)
    (h : processLine opts g fs ln = .ok (g', fs'))
    (hinv : seriesInv fs) : seriesInv fs' := by
  rcases processLine_cases opts g fs ln g' fs' h with
    ⟨_, _, rfl, _⟩ | ⟨x0, dt, echoes, yy2, _, _, hr, _, rfl⟩
  · exact hinv
  · obtain ⟨_, h2, _⟩ := processCols_spec opts ln.data ln.raw fs.yy opts.ycol
      yy2 dt echoes hr
    intro ys2 hys2
    obtain ⟨ys, hys, y, rfl⟩ := h2 ys2 hys2
    simp [hinv ys hys]

lemma processLine_totals (opts : Options) (g : Global) (fs : FileState)
    (ln : Line) (g' : Global) (fs' : FileState)
    (h : processLine opts g fs ln = .ok (g', fs')) :
    g'.total_y + ySum fs.yy = g.total_y + ySum fs'.yy
    ∧ g'.index + fs.xx.length = g.index + fs'.xx.length := by
  rcases processLine_cases opts g fs ln g' fs' h with
    ⟨h1, h2, rfl, _⟩ | ⟨x0, dt, echoes, yy2, _, _, hr, rfl, rfl⟩
  · rw [h1, h2]; exact ⟨rfl, rfl⟩
  · obtain ⟨_, _, h3⟩ := processCols_spec opts ln.data ln.raw fs.yy opts.ycol
      yy2 dt echoes hr
    constructor
    · simp only [h3]; ring
    · simp [Nat.add_assoc, Nat.add_comm 1]

lemma processLine_xx (opts : Options) (g : Global) (fs : FileState)
    (ln : Line) (g' : Global) (fs' : FileState)
    (hx : opts.xcol < 0)
    (h : processLine opts g fs ln = .ok (g', fs')) :
    (fs'.xx = fs.xx ∧ g'.index = g.index)
    ∨ (fs'.xx = fs.xx ++ [(g.index : ℚ) / opts.xdiv] ∧ g'.index = g.index + 1) := by
  rcases processLine_cases opts g fs ln g' fs' h with
    ⟨h1, _, rfl, _⟩ | ⟨x0, dt, echoes, yy2, hx0, _, _, rfl, rfl⟩
  · exact Or.inl ⟨rfl, h1⟩
  · rw [if_neg (by omega)] at hx0
    obtain rfl : (g.index : ℚ) = x0 := by simpa using hx0
    exact Or.inr ⟨rfl, rfl⟩

lemma processFileLines_inv (opts : Options) :
    ∀ (lines : List Line) (g : Global) (fs : FileState) (g' : Global)
      (fs' : FileState),
      processFileLines opts lines g fs = .ok (g', fs') →
      seriesInv fs → seriesInv fs'
  | [], g, fs, g', fs', h, hinv => by
    cases h
    exact hinv
  | ln :: rest, g, fs, g', fs', h, hinv => by
    simp only [processFileLines] at h
    cases hl : processLine opts g fs ln with
    | error e => simp only [hl] at h; exact Except.noConfusion h
    | ok r =>
      obtain ⟨g2, fs2⟩ := r
      simp only [hl] at h
      exact processFileLines_inv opts rest g2 fs2 g' fs' h
        (processLine_inv opts g fs ln g2 fs2 hl hinv)

lemma processFileLines_totals (opts : Options) :
    ∀ (lines : List Line) (g : Global) (fs : FileState) (g' : Global)
      (fs' : FileState),
      processFileLines opts lines g fs = .ok (g', fs') →
      g'.total_y + ySum fs.yy = g.total_y + ySum fs'.yy
      ∧ g'.index + fs.xx.length = g.index + fs'.xx.length
  | [], g, fs, g', fs', h => by
    cases h
    exact ⟨rfl, rfl⟩
  | ln :: rest, g, fs, g', fs', h => by
    simp only [processFileLines] at h
    cases hl : processLine opts g fs ln with
    | error e => simp only [hl] at h; exact Except.noConfusion h
    | ok r =>
      obtain ⟨g2, fs2⟩ := r
      simp only [hl] at h
      obtain ⟨t1, c1⟩ := processLine_totals opts g fs ln g2 fs2 hl
      obtain ⟨t2, c2⟩ := processFileLines_totals opts rest g2 fs2 g' fs' h
      constructor
      · linarith
      · omega

lemma processFileLines_xx (opts : Options) (hx : opts.xcol < 0) :
    ∀ (lines : List Line) (g : Global) (fs : FileState) (g' : Global)
      (fs' : FileState),
      processFileLines opts lines g fs = .ok (g', fs') →
      ∃ k, g'.index = g.index + k
        ∧ fs'.xx = fs.xx
            ++ (List.range' g.index k).map (fun n : ℕ => (n : ℚ) / opts.xdiv)
  | [], g, fs, g', fs', h => by
    cases h
    exact ⟨0, rfl, by simp⟩
  | ln :: rest, g, fs, g', fs', h => by
    simp only [processFileLines] at h
    cases hl : processLine opts g fs ln with
    | error e => simp only [hl] at h; exact Except.noConfusion h
    | ok r =>
      obtain ⟨g2, fs2⟩ := r
      simp only [hl] at h
      obtain ⟨k, hk, hxx⟩ := processFileLines_xx opts hx rest g2 fs2 g' fs' h
      rcases processLine_xx opts g fs ln g2 fs2 hx hl with ⟨e1, e2⟩ | ⟨e1, e2⟩
      · exact ⟨k, by omega, by rw [hxx, e1, e2]⟩
      · refine ⟨k + 1, by omega, ?_⟩
        rw [hxx, e1, e2, List.range'_succ]
        simp

lemma initFS_ySum (opts : Options) : ySum (initFS opts).yy = 0 := by
  simp [initFS, ySum, List.map_map, Function.comp]

lemma initFS_xx (opts : Options) : (initFS opts).xx = [] := rfl

lemma initFS_inv (opts : Options) : seriesInv (initFS opts) := by
  intro ys hys
  simp only [initFS, List.mem_map] at hys
  obtain ⟨_, _, rfl⟩ := hys
  rfl

lemma processFiles_totals (opts : Options) :
    ∀ (files : List (List Line)) (g : Global) (g' : Global)
      (fss : List FileState),
      processFiles opts files g = .ok (g', fss) →
      g'.total_y = g.total_y + (fss.map (fun fs => ySum fs.yy)).sum
      ∧ g'.index = g.index + (fss.map (fun fs => fs.xx.length)).sum
  | [], g, g', fss, h => by
    cases h
    exact ⟨by simp, by simp⟩
  | f :: rest, g, g', fss, h => by
    simp only [processFiles] at h
    cases hf : processFileLines opts f g (initFS opts) with
    | error e => simp only [hf] at h; exact Except.noConfusion h
    | ok r =>
      obtain ⟨g2, fs⟩ := r
      simp only [hf] at h
      cases hr : processFiles opts rest g2 with
      | error e => simp only [hr] at h; exact Except.noConfusion h
      | ok r2 =>
        obtain ⟨g3, fss2⟩ := r2
        simp only [hr, Except.ok.injEq, Prod.mk.injEq] at h
        obtain ⟨rfl, rfl⟩ := h
        obtain ⟨t1, c1⟩ := processFileLines_totals opts f g (initFS opts) g2 fs hf
        rw [initFS_ySum] at t1
        rw [initFS_xx] at c1
        simp only [List.length_nil, Nat.add_zero] at c1
        obtain ⟨t2, c2⟩ := processFiles_totals opts rest g2 g3 fss2 hr
        constructor
        · simp only [List.map_cons, List.sum_cons]
          rw [t2]
          linarith
        · simp only [List.map_cons, List.sum_cons]
          omega

lemma processFiles_xx (opts : Options) (hx : opts.xcol < 0) :
    ∀ (files : List (List Line)) (g : Global) (g' : Global)
      (fss : List FileState),
      processFiles opts files g = .ok (g', fss) →
      ∃ k, g'.index = g.index + k
        ∧ (fss.map FileState.xx).flatten
            = (List.range' g.index k).map (fun n : ℕ => (n : ℚ) / opts.xdiv)
  | [], g, g', fss, h => by
    cases h
    exact ⟨0, rfl, by simp⟩
  | f :: rest, g, g', fss, h => by
    simp only [processFiles] at h
    cases hf : processFileLines opts f g (initFS opts) with
    | error e => simp only [hf] at h; exact Except.noConfusion h
    | ok r =>
      obtain ⟨g2, fs⟩ := r
      simp only [hf] at h
      cases hr : processFiles opts rest g2 with
      | error e => simp only [hr] at h; exact Except.noConfusion h
      | ok r2 =>
        obtain ⟨g3, fss2⟩ := r2
        simp only [hr, Except.ok.injEq, Prod.mk.injEq] at h
        obtain ⟨rfl, rfl⟩ := h
        obtain ⟨k1, hk1, hxx1⟩ := processFileLines_xx opts hx f g (initFS opts)
          g2 fs hf
        rw [initFS_xx, List.nil_append] at hxx1
        obtain ⟨k2, hk2, hxx2⟩ := processFiles_xx opts hx rest g2 g3 fss2 hr
        refine ⟨k1 + k2, by omega, ?_⟩
        simp only [List.map_cons, List.flatten_cons, hxx1, hxx2, hk1]
        have hra : List.range' g.index k1 ++ List.range' (g.index + k1) k2
            = List.range' g.index (k1 + k2) := by
          have h0 := List.range'_append g.index k1 k2 1
          rw [one_mul, Nat.add_comm k2 k1] at h0
          exact h0
        rw [← List.map_append, hra]

lemma dictIncr_fst (d : List (Int × Nat)) (k : Int) :
    (dictIncr d k).map Prod.fst =
      if k ∈ d.map Prod.fst then d.map Prod.fst else d.map Prod.fst ++ [k] := by
  induction d with
  | nil => simp [dictIncr]
  | cons p rest ih =>
    obtain ⟨k', v⟩ := p
    by_cases hk : k' = k
    · subst hk
      simp [dictIncr]
    · simp only [dictIncr, if_neg hk, List.map_cons, ih]
      by_cases hmem : k ∈ rest.map Prod.fst
      · rw [if_pos hmem, if_pos (by simp [hmem])]
      · rw [if_neg hmem, if_neg (by simp [hmem, Ne.symm hk])]
        simp

lemma dictIncr_nodup (d : List (Int × Nat)) (k : Int)
    (h : (d.map Prod.fst).Nodup) : ((dictIncr d k).map Prod.fst).Nodup := by
  rw [dictIncr_fst]
  by_cases hmem : k ∈ d.map Prod.fst
  · rwa [if_pos hmem]
  · rw [if_neg hmem, List.nodup_append]
    exact ⟨h, List.nodup_singleton _, by simpa [List.disjoint_singleton] using hmem⟩

lemma alookup_dictIncr_self (d : List (Int × Nat)) (k : Int) :
    alookup (dictIncr d k) k = some ((alookup d k).getD 0 + 1) := by
  induction d with
  | nil => simp [dictIncr, alookup]
  | cons p rest ih =>
    obtain ⟨k', v⟩ := p
    by_cases hk : k' = k
    · subst hk
      simp [dictIncr, alookup]
    · simp [dictIncr, alookup, hk, ih]

lemma alookup_dictIncr_ne (d : List (Int × Nat)) (k j : Int) (h : ¬ j = k) :
    alookup (dictIncr d k) j = alookup d j := by
  have hkj : ¬ k = j := fun hkj => h hkj.symm
  induction d with
  | nil => simp [dictIncr, alookup, hkj]
  | cons p rest ih =>
    obtain ⟨k', v⟩ := p
    by_cases hk : k' = k
    · subst hk
      simp [dictIncr, alookup, hkj]
    · by_cases hj : k' = j
      · subst hj
        simp [dictIncr, alookup, hk]
      · simp [dictIncr, alookup, hk, hj, ih]

lemma alookup_nil (j : Int) : alookup [] j = none := rfl

lemma histFold_count (bins : List Int) :
    ∀ (d : List (Int × Nat)) (k : Int),
      (alookup (bins.foldl dictIncr d) k).getD 0
        = (alookup d k).getD 0 + bins.count k := by
  induction bins with
  | nil => intro d k; simp
  | cons b rest ih =>
    intro d k
    simp only [List.foldl_cons]
    rw [ih]
    by_cases hk : k = b
    · subst hk
      rw [alookup_dictIncr_self]
      simp [List.count_cons]
      omega
    · rw [alookup_dictIncr_ne d b k hk]
      simp [List.count_cons, hk]

lemma histFold_mem (bins : List Int) :
    ∀ (d : List (Int × Nat)) (k : Int),
      k ∈ ((bins.foldl dictIncr d).map Prod.fst)
        ↔ k ∈ d.map Prod.fst ∨ k ∈ bins := by
  induction bins with
  | nil => intro d k; simp
  | cons b rest ih =>
    intro d k
    simp only [List.foldl_cons]
    rw [ih, dictIncr_fst]
    by_cases hmem : b ∈ d.map Prod.fst
    · rw [if_pos hmem]
      constructor
      · rintro (h | h)
        · exact Or.inl h
        · exact Or.inr (List.mem_cons_of_mem _ h)
      · rintro (h | h)
        · exact Or.inl h
        · rcases List.mem_cons.1 h with rfl | h
          · exact Or.inl hmem
          · exact Or.inr h
    · rw [if_neg hmem]
      simp only [List.mem_append, List.mem_singleton, List.mem_cons]
      tauto

lemma histFold_nodup (bins : List Int) :
    ∀ (d : List (Int × Nat)), (d.map Prod.fst).Nodup →
      ((bins.foldl dictIncr d).map Prod.fst).Nodup := by
  induction bins with
  | nil => intro d h; exact h
  | cons b rest ih =>
    intro d h
    exact ih _ (dictIncr_nodup d b h)

lemma dictIncr_snd_sum (d : List (Int × Nat)) (k : Int) :
    ((dictIncr d k).map Prod.snd).sum = (d.map Prod.snd).sum + 1 := by
  induction d with
  | nil => simp [dictIncr]
  | cons p rest ih =>
    obtain ⟨k', v⟩ := p
    by_cases hk : k' = k
    · subst hk
      simp [dictIncr]
      omega
    · simp [dictIncr, hk, ih]
      omega

lemma histFold_snd_sum (bins : List Int) :
    ∀ (d : List (Int × Nat)),
      ((bins.foldl dictIncr d).map Prod.snd).sum
        = (d.map Prod.snd).sum + bins.length := by
  induction bins with
  | nil => intro d; simp
  | cons b rest ih =>
    intro d
    simp only [List.foldl_cons, List.length_cons]
    rw [ih, dictIncr_snd_sum]
    omega

lemma alookup_of_mem_nodup (d : List (Int × Nat))
    (hn : (d.map Prod.fst).Nodup) (k : Int) (v : Nat) (h : (k, v) ∈ d) :
    alookup d k = some v := by
  induction d with
  | nil => cases h
  | cons p rest ih =>
    obtain ⟨k', v'⟩ := p
    simp only [List.map_cons, List.nodup_cons] at hn
    rcases List.mem_cons.1 h with heq | hmem
    · obtain ⟨rfl, rfl⟩ := Prod.mk.injEq .. ▸ heq
      simp [alookup]
    · have hk : ¬ k' = k := by
        rintro rfl
        exact hn.1 (List.mem_map.2 ⟨(k', v), hmem, rfl⟩)
      simp only [alookup, if_neg hk]
      exact ih hn.2 hmem

lemma calcHistogram_spec (yy : List ℚ) (B : ℚ) :
    ∃ s : List (Int × Nat),
      calcHistogram yy B = (s.map (fun p => (p.1 : ℚ) * B), s.map Prod.snd)
      ∧ List.Sorted keyLE s
      ∧ (s.map Prod.fst).Nodup
      ∧ (∀ p ∈ s, p.2 = (yy.map (fun y => ⌊y / B⌋)).count p.1)
      ∧ (∀ k : ℤ, k ∈ s.map Prod.fst ↔ k ∈ yy.map (fun y => ⌊y / B⌋))
      ∧ (s.map Prod.snd).sum = yy.length := by
  have hperm := List.perm_insertionSort keyLE
    ((yy.map (fun y => ⌊y / B⌋)).foldl dictIncr [])
  have hnodup : ((((yy.map (fun y => ⌊y / B⌋)).foldl dictIncr [])).map
      Prod.fst).Nodup :=
    histFold_nodup _ [] (by simp)
  refine ⟨List.insertionSort keyLE ((yy.map (fun y => ⌊y / B⌋)).foldl dictIncr []),
    rfl, List.sorted_insertionSort keyLE _, ?_, ?_, ?_, ?_⟩
  · exact ((hperm.map Prod.fst).nodup_iff).2 hnodup
  · intro p hp
    have hp2 : p ∈ ((yy.map (fun y => ⌊y / B⌋)).foldl dictIncr []) :=
      hperm.mem_iff.1 hp
    have hl : alookup ((yy.map (fun y => ⌊y / B⌋)).foldl dictIncr []) p.1
        = some p.2 := by
      obtain ⟨k, v⟩ := p
      exact alookup_of_mem_nodup _ hnodup k v hp2
    have hc := histFold_count (yy.map (fun y => ⌊y / B⌋)) [] p.1
    rw [hl, alookup_nil] at hc
    simpa using hc
  · intro k
    rw [((hperm.map Prod.fst).mem_iff)]
    have := histFold_mem (yy.map (fun y => ⌊y / B⌋)) [] k
    simpa using this
  · rw [(hperm.map Prod.snd).sum_eq]
    rw [histFold_snd_sum (yy.map (fun y => ⌊y / B⌋)) []]
    simp

/-- Claim C3: for every Y sequence and positive bin width B, the
histogram assigns each value the integer bin index given by the floor
of its quotient by B (negative bins possible), counts occurrences per
bin, and returns the pairs of bin start (bin index times B) and count
sorted strictly ascending by bin index, omitting bins with zero count
(a bin index appears exactly when some value falls in it); and on the
concrete input [0.1, 0.4, 1.2, 1.9, 2.0] with bin width 1.0 it yields
exactly the bins [(0.0, 2), (1.0, 2), (2.0, 1)]. -/
theorem claim_c3 (yy : List ℚ) (B : ℚ) (hB : 0 < B) :
    (∃ keys : List ℤ,
      (calcHistogram yy B).1 = keys.map (fun k : ℤ => (k : ℚ) * B)
      ∧ (calcHistogram yy B).2
          = keys.map (fun k : ℤ => (yy.map (fun y => ⌊y / B⌋)).count k)
      ∧ List.Sorted (· < ·) keys
      ∧ (∀ k : ℤ, k ∈ keys ↔ k ∈ yy.map (fun y => ⌊y / B⌋)))
    ∧ calcHistogram [1/10, 2/5, 6/5, 19/10, 2] 1 = ([0, 1, 2], [2, 2, 1]) := by
  constructor
  · obtain ⟨s, heq, hsorted, hnodup, hcount, hmem, _⟩ := calcHistogram_spec yy B
    refine ⟨s.map Prod.fst, ?_, ?_, ?_, hmem⟩
    · rw [heq, List.map_map]
      rfl
    · rw [heq, List.map_map]
      exact List.map_congr_left hcount
    · have hle : List.Sorted (· ≤ ·) (s.map Prod.fst) :=
        List.pairwise_map.2 hsorted
      exact hle.lt_of_le hnodup
  · norm_num [calcHistogram, dictIncr, List.insertionSort, List.orderedInsert,
      keyLE]

/-- Witness for claim C3 at a concrete input: bin width 1 is positive
and the histogram of [0.1, 0.4, 1.2, 1.9, 2.0] is [(0,2),(1,2),(2,1)]. -/
theorem claim_c3_witness :
    (0 : ℚ) < 1
    ∧ calcHistogram [1/10, 2/5, 6/5, 19/10, 2] 1 = ([0, 1, 2], [2, 2, 1]) :=
  ⟨by norm_num, (claim_c3 [1/10, 2/5, 6/5, 19/10, 2] 1 (by norm_num)).2⟩

/-- Claim C4: for every Y sequence and positive bin width, the counts
of the returned histogram bins sum to the number of input values. -/
theorem claim_c4 (yy : List ℚ) (B : ℚ) (hB : 0 < B) :
    ((calcHistogram yy B).2).sum = yy.length := by
  obtain ⟨s, heq, _, _, _, _, hsum⟩ := calcHistogram_spec yy B
  rw [heq]
  exact hsum

/-- Witness for claim C4 at a concrete input: bin width 2 is positive
and the counts of the histogram of [0.1, 5, -3] sum to 3. -/
theorem claim_c4_witness :
    (0 : ℚ) < 2 ∧ ((calcHistogram [1/10, 5, -3] 2).2).sum = 3 := by
  refine ⟨by norm_num, ?_⟩
  have h := claim_c4 [1/10, 5, -3] 2 (by norm_num)
  simpa using h

/-- Claim C1 (refuted, code bug): a line whose token count is
insufficient for the configured columns is claimed to be rejected with
an informational skip whenever the X index is nonnegative and at least
the token count or any Y index is at least the token count.  The source
line 131 tests `max(options.ycol) > len(data)` with a strict
comparison, so a line whose token count exactly equals a configured Y
index passes the test and the subsequent access `data[ycol[i]]` raises
an uncaught IndexError, aborting the run instead of skipping the line:
with Y column 2 and the 2-token line below the modelled run returns the
IndexError.  The second conjunct shows the intended behaviour at one
fewer token: the line is skipped with the message, nothing else
changes, as the claim states for every insufficient line. -/
theorem claim_c1 :
    processLine (mkOpts (-1) [2] 1 0 0 false) initGlobal
        (initFS (mkOpts (-1) [2] 1 0 0 false)) (mkLine "a 1 2" [1, 2])
      = .error Err.indexError
    ∧ processLine (mkOpts (-1) [2] 1 0 0 false) initGlobal
        (initFS (mkOpts (-1) [2] 1 0 0 false)) (mkLine "a 1" [1])
      = .ok ({ initGlobal with out := [Out.skip "a 1"] },
             initFS (mkOpts (-1) [2] 1 0 0 false)) := by
  constructor <;> decide

/-- Claim C2 counterexample: with the X sentinel active and the X
divisor set to 2, the second accepted record is emitted with X value
one half, the running index divided by the divisor, while the claim as
stated requires the emitted X to equal 1, the number of previously
accepted records.  The emitted X is also not the raw line number. -/
theorem claim_c2_cex :
    processFiles (mkOpts (-1) [0] 2 0 0 false)
        [[mkLine "5" [5], mkLine "7" [7]]] initGlobal
      = .ok ({ index := 2, total_y := 12, out := [] },
             [{ xx := [0, 1/2], yy := [[5, 7]] }])
    ∧ ((1 : ℚ)/2 ≠ 1) := by
  constructor
  · norm_num [processFiles, processFileLines, processLine, processCols,
      initFS, initGlobal, mkOpts, mkLine, pyGet, List.max?]
  · norm_num

/-- Claim C2 as amended: for every run with the X sentinel active
(negative X column), the emitted X values of the accepted records,
concatenated across all files in processing order, are exactly the
values 0, 1, 2, ... divided by the configured X divisor: the underlying
running index is the 0-based count of previously accepted records
across all files, monotonically increasing and never reset between
files, and with the default divisor 1 the emitted X equals that count
and not the raw line number within the current file. -/
theorem claim_c2 (opts : Options) (files : List (List Line)) (g : Global)
    (fss : List FileState)
    (hx : opts.xcol < 0)
    (h : processFiles opts files initGlobal = .ok (g, fss)) :
    (fss.map FileState.xx).flatten
      = (List.range g.index).map (fun n : ℕ => (n : ℚ) / opts.xdiv) := by
  obtain ⟨k, hk, hxx⟩ := processFiles_xx opts hx files initGlobal g fss h
  have h0 : initGlobal.index = 0 := rfl
  rw [h0] at hk
  have hgk : g.index = k := by omega
  rw [hxx, h0, hgk, List.range_eq_range']

/-- Witness for the amended claim C2 at a concrete input: the X column
is the sentinel and the two accepted records of the run behind
claim C2 counterexample emit the X values 0 and one half, which are
the running index values 0 and 1 divided by the divisor 2. -/
theorem claim_c2_witness :
    ((mkOpts (-1) [0] 2 0 0 false).xcol < 0)
    ∧ ([({ xx := [0, 1/2], yy := [[5, 7]] } : FileState)].map FileState.xx).flatten
        = (List.range 2).map
            (fun n : ℕ => (n : ℚ) / (mkOpts (-1) [0] 2 0 0 false).xdiv) := by
  refine ⟨by decide, ?_⟩
  exact claim_c2 (mkOpts (-1) [0] 2 0 0 false)
    [[mkLine "5" [5], mkLine "7" [7]]]
    { index := 2, total_y := 12, out := [] }
    [{ xx := [0, 1/2], yy := [[5, 7]] }]
    (by decide)
    (by norm_num [processFiles, processFileLines, processLine, processCols,
      initFS, initGlobal, mkOpts, mkLine, pyGet, List.max?])

/-- Claim C5: if statistics printing is requested and zero records were
accepted over the whole run, the run fails with the division-by-zero
condition at the end of the run: whenever file processing and series
construction succeed with a final running index of zero and the
statistics option enabled, the modelled run aborts with the
ZeroDivisionError (a non-zero exit, not a silent zero average), so no
image is written. -/
theorem claim_c5 (opts : Options) (names : List String)
    (files : List (String × List Line)) (g : Global) (fss : List FileState)
    (ss : List Series)
    (hp : processFiles opts (files.map Prod.snd) initGlobal = .ok (g, fss))
    (hm : mkAllSeries opts names (files.map Prod.fst) fss = .ok ss)
    (hs : opts.print_stats = true)
    (hz : g.index = 0) :
    runMain opts names files = .error Err.zeroDivisionError := by
  simp only [runMain, hp, hm]
  simp [statsStep, hs, hz]

/-- Witness for claim C5 at a concrete input: one file with no lines,
statistics requested, zero accepted records, and the run returns the
ZeroDivisionError. -/
theorem claim_c5_witness :
    processFiles (mkOpts (-1) [0] 1 0 0 true) [[]] initGlobal
      = .ok (initGlobal, [initFS (mkOpts (-1) [0] 1 0 0 true)])
    ∧ (mkOpts (-1) [0] 1 0 0 true).print_stats = true
    ∧ initGlobal.index = 0
    ∧ runMain (mkOpts (-1) [0] 1 0 0 true) ["0"] [("f", [])]
        = .error Err.zeroDivisionError := by
  refine ⟨by decide, rfl, rfl, ?_⟩
  exact claim_c5 (mkOpts (-1) [0] 1 0 0 true) ["0"] [("f", [])] initGlobal
    [initFS (mkOpts (-1) [0] 1 0 0 true)] [{ label := "f", xs := [], ys := [] }]
    (by decide) (by decide) rfl rfl

/-- Claim C6: when statistics printing is enabled and at least one
record was accepted, the run succeeds and reports exactly one stats
line whose sum is the final running Y total and whose average is that
sum divided by the running index; moreover the running Y total equals
the total of every Y value accepted across every series and every file,
and the running index equals the count of accepted records. -/
theorem claim_c6 (opts : Options) (names : List String)
    (files : List (String × List Line)) (g : Global) (fss : List FileState)
    (ss : List Series)
    (hp : processFiles opts (files.map Prod.snd) initGlobal = .ok (g, fss))
    (hm : mkAllSeries opts names (files.map Prod.fst) fss = .ok ss)
    (hs : opts.print_stats = true)
    (hn : ¬ g.index = 0) :
    g.total_y = (fss.map (fun fs => ySum fs.yy)).sum
    ∧ g.index = (fss.map (fun fs => fs.xx.length)).sum
    ∧ runMain opts names files
        = .ok (ss, g, g.out ++ [Out.stats g.total_y (g.total_y / (g.index : ℚ))]) := by
  obtain ⟨t, c⟩ := processFiles_totals opts (files.map Prod.snd) initGlobal
    g fss hp
  have h0 : initGlobal.total_y = 0 := rfl
  have h1 : initGlobal.index = 0 := rfl
  rw [h0, zero_add] at t
  rw [h1, Nat.zero_add] at c
  refine ⟨t, c, ?_⟩
  simp only [runMain, hp, hm]
  simp [statsStep, hs, hn]

/-- Witness for claim C6 at the concrete input of the claim: three
accepted records with Y values 1, 2 and 3 produce the stats report with
sum 6 and average 2. -/
theorem claim_c6_witness :
    runMain (mkOpts (-1) [0] 1 0 0 true) ["0"]
        [("f", [mkLine "1" [1], mkLine "2" [2], mkLine "3" [3]])]
      = .ok ([{ label := "f", xs := [0, 1, 2], ys := [1, 2, 3] }],
             { index := 3, total_y := 6, out := [] },
             [Out.stats 6 2]) := by
  have h := claim_c6 (mkOpts (-1) [0] 1 0 0 true) ["0"]
    [("f", [mkLine "1" [1], mkLine "2" [2], mkLine "3" [3]])]
    { index := 3, total_y := 6, out := [] }
    [{ xx := [0, 1, 2], yy := [[1, 2, 3]] }]
    [{ label := "f", xs := [0, 1, 2], ys := [1, 2, 3] }]
    (by norm_num [processFiles, processFileLines, processLine, processCols,
      initFS, initGlobal, mkOpts, mkLine, pyGet, List.max?])
    (by decide) rfl (by decide)
  rw [h.2.2]
  norm_num

/-- Claim C7: when the print-high option is configured (nonzero
threshold) and a record is accepted, the raw line is echoed verbatim to
stdout once for every configured Y column whose value reaches the
threshold: the stdout additions of the accepted line are exactly that
many copies of the echo of the raw line after the optional verbose
dump, so a record with k triggering Y columns emits the line k times
and a record with a triggering Y value emits it at least once. -/
theorem claim_c7 (opts : Options) (g : Global) (fs : FileState) (ln : Line)
    (g' : Global) (fs' : FileState)
    (hlen : opts.ycol.length = fs.yy.length)
    (hph : opts.print_high ≠ 0)
    (h : processLine opts g fs ln = .ok (g', fs'))
    (hacc : fs'.xx.length = fs.xx.length + 1) :
    g'.out = g.out ++ (if 2 ≤ opts.verbose then [Out.dump ln.data] else [])
      ++ List.replicate
          ((opts.ycol.filterMap (pyGet ln.data)).countP
            (fun y => decide (opts.print_high ≤ y)))
          (Out.echo ln.raw) := by
  rcases processLine_cases opts g fs ln g' fs' h with
    ⟨_, _, rfl, _⟩ | ⟨x0, dt, echoes, yy2, _, _, hr, rfl, rfl⟩
  · exact absurd hacc (by omega)
  · have he := processCols_outs opts ln.data ln.raw fs.yy opts.ycol yy2 dt
      echoes hlen hr
    rw [he]
    have hcong : ((opts.ycol.filterMap (pyGet ln.data)).countP
        (fun y => decide (opts.print_high ≠ 0 ∧ opts.print_high ≤ y)))
        = ((opts.ycol.filterMap (pyGet ln.data)).countP
            (fun y => decide (opts.print_high ≤ y))) := by
      apply List.countP_congr
      intro y hy
      simp [hph]
    rw [hcong]

/-- Witness for claim C7 at a concrete input: threshold 3, two Y
columns with values 5 and 1, the record is accepted and the raw line is
echoed exactly once, by the single triggering column. -/
theorem claim_c7_witness :
    ({ index := 1, total_y := 6, out := [Out.echo "L"] } : Global).out
      = ([] : List Out)
        ++ (if 2 ≤ (mkOpts (-1) [0, 1] 1 0 3 false).verbose
            then [Out.dump [5, 1]] else [])
        ++ List.replicate
            ((((mkOpts (-1) [0, 1] 1 0 3 false).ycol).filterMap (pyGet [5, 1])).countP
              (fun y => decide ((mkOpts (-1) [0, 1] 1 0 3 false).print_high ≤ y)))
            (Out.echo "L") := by
  exact claim_c7 (mkOpts (-1) [0, 1] 1 0 3 false) initGlobal
    (initFS (mkOpts (-1) [0, 1] 1 0 3 false)) (mkLine "L" [5, 1])
    { index := 1, total_y := 6, out := [Out.echo "L"] }
    { xx := [0], yy := [[5], [1]] }
    (by decide) (by decide)
    (by norm_num [processLine, processCols, initFS, initGlobal, mkOpts,
      mkLine, pyGet, List.max?])
    (by decide)

/-- Claim C8: during the processing of a single file, the invariant
that every per-Y-column series has the length of the shared X list
holds after every consumed line: it holds for the fresh per-file state
and it is preserved by any successful run of the line loop from any
state satisfying it (so it holds after every prefix of the file).  The
X values are shared structurally by all series of the file, as in the
source, so all series agree on the X value at every index. -/
theorem claim_c8 (opts : Options) (lines : List Line) (g g' : Global)
    (fs fs' : FileState)
    (h : processFileLines opts lines g fs = .ok (g', fs'))
    (hinv : seriesInv fs) :
    seriesInv fs' ∧ seriesInv (initFS opts) :=
  ⟨processFileLines_inv opts lines g fs g' fs' h hinv, initFS_inv opts⟩

/-- Witness for claim C8 at a concrete input: one accepted line with
two Y columns, the resulting state has two series of length one, equal
to the length of the X list. -/
theorem claim_c8_witness :
    processFileLines (mkOpts (-1) [0, 1] 1 0 0 false) [mkLine "l" [1, 2]]
        initGlobal (initFS (mkOpts (-1) [0, 1] 1 0 0 false))
      = .ok ({ index := 1, total_y := 3, out := [] },
             { xx := [0], yy := [[1], [2]] })
    ∧ seriesInv ({ xx := [0], yy := [[1], [2]] } : FileState) := by
  have hrun : processFileLines (mkOpts (-1) [0, 1] 1 0 0 false)
      [mkLine "l" [1, 2]] initGlobal (initFS (mkOpts (-1) [0, 1] 1 0 0 false))
      = .ok ({ index := 1, total_y := 3, out := [] },
             { xx := [0], yy := [[1], [2]] }) := by
    norm_num [processFileLines, processLine, processCols, initFS, initGlobal,
      mkOpts, mkLine, pyGet, List.max?]
  refine ⟨hrun, ?_⟩
  exact (claim_c8 (mkOpts (-1) [0, 1] 1 0 0 false) [mkLine "l" [1, 2]]
    initGlobal { index := 1, total_y := 3, out := [] }
    (initFS (mkOpts (-1) [0, 1] 1 0 0 false)) { xx := [0], yy := [[1], [2]] }
    hrun (initFS_inv _)).1

/-- Claim C10: when no Y column spec is supplied, the parser defaults
to the single spec "0", whose display name is the string "0" and whose
numeric index is 0; and with that single Y column the accepted record
takes its Y value from token position 0 of the line. -/
theorem claim_c10 :
    parseYcols [] = .ok (["0"], [0])
    ∧ ∀ (opts : Options) (data : List ℚ) (raw : String) (ys : List ℚ) (y : ℚ),
        pyGet data 0 = some y →
        ∃ outs, processCols opts data raw [0] [ys] = .ok ([ys ++ [y]], y, outs) := by
  refine ⟨by decide, ?_⟩
  intro opts data raw ys y hy
  refine ⟨(if opts.print_high ≠ 0 ∧ opts.print_high ≤ y
    then [Out.echo raw] else []), ?_⟩
  simp [processCols, hy]

/-- Witness for claim C10 at a concrete input: the default parse
result, and a one-token line whose token 0 (value 3) becomes the Y
value of the single default column. -/
theorem claim_c10_witness :
    pyGet [(3 : ℚ)] 0 = some 3
    ∧ ∃ outs, processCols (mkOpts (-1) [0] 1 0 0 false) [(3 : ℚ)] "L" [0] [[]]
        = .ok ([[3]], 3, outs) :=
  ⟨by decide,
   claim_c10.2 (mkOpts (-1) [0] 1 0 0 false) [(3 : ℚ)] "L" [] 3 (by decide)⟩

lemma makeSeriesAux_nil (opts : Options) (infile : String) (n : Nat)
    (xx : List ℚ) (names : List String) (ycs : List Int) :
    makeSeriesAux opts infile n xx [] names ycs = .ok [] := by
  cases names <;> cases ycs <;> rfl

lemma makeSeriesAux_nohist (opts : Options) (infile : String) (n : Nat)
    (xx : List ℚ) (hh : opts.hist ≤ 0) :
    ∀ (yss : List (List ℚ)) (names : List String) (ycs : List Int)
      (ss : List Series),
      makeSeriesAux opts infile n xx yss names ycs = .ok ss →
      ss.map Series.xs = yss.map (fun _ => xx)
      ∧ ss.map Series.ys
          = yss.map (fun ys => if opts.sort then List.insertionSort (· ≤ ·) ys
              else ys)
  | [], names, ycs, ss, h => by
    rw [makeSeriesAux_nil] at h
    cases h
    exact ⟨rfl, rfl⟩
  | ys :: yss, [], ycs, ss, h => by
    simp [makeSeriesAux] at h
  | ys :: yss, name :: names, [], ss, h => by
    simp [makeSeriesAux] at h
  | ys :: yss, name :: names, yc :: ycs, ss, h => by
    have h' : ¬ (0 : ℚ) < opts.hist := not_lt.mpr hh
    simp only [makeSeriesAux, h', if_false] at h
    cases hr : makeSeriesAux opts infile n xx yss names ycs with
    | error e => simp only [hr] at h; exact Except.noConfusion h
    | ok ss2 =>
      simp only [hr, Except.ok.injEq] at h
      subst h
      obtain ⟨ih1, ih2⟩ := makeSeriesAux_nohist opts infile n xx hh yss names
        ycs ss2 hr
      constructor
      · simp only [List.map_cons, ih1]
      · simp only [List.map_cons, ih2]

/-- Claim C9 counterexample: with histogramming requested at the
nonpositive bin width -1, the run does not fail fatally; it completes
and plots the untransformed data.  The source line 152 guards the
transform with the strict test `options.hist > 0`, so a nonpositive
width disables histogramming, exactly as the documented width 0
default does, and the run below returns a successful result whose
single series carries the raw values. -/
theorem claim_c9_cex :
    runMain (mkOpts (-1) [0] 1 (-1) 0 false) ["0"] [("f", [mkLine "5" [5]])]
      = .ok ([{ label := "f", xs := [0], ys := [5] }],
             { index := 1, total_y := 5, out := [] }, []) := by
  norm_num [runMain, processFiles, processFileLines, processLine, processCols,
    initFS, initGlobal, mkOpts, mkLine, pyGet, List.max?, mkAllSeries,
    makeSeriesAux, statsStep, intStr, natDigits]

/-- Claim C9 as amended: when the configured histogram bin width is
nonpositive, the histogram transform is not applied at all: series
construction succeeds without invoking calcHistogram, and every
produced series carries the shared X list and the (optionally sorted)
raw Y values of its column unchanged.  The width 0 default and any
negative width disable histogramming; no fatal error is raised. -/
theorem claim_c9 (opts : Options) (infile : String) (n : Nat) (xx : List ℚ)
    (yss : List (List ℚ)) (names : List String) (ycs : List Int)
    (ss : List Series)
    (hh : opts.hist ≤ 0)
    (h : makeSeriesAux opts infile n xx yss names ycs = .ok ss) :
    ss.map Series.xs = yss.map (fun _ => xx)
    ∧ ss.map Series.ys
        = yss.map (fun ys => if opts.sort then List.insertionSort (· ≤ ·) ys
            else ys) :=
  makeSeriesAux_nohist opts infile n xx hh yss names ycs ss h

/-- Witness for the amended claim C9 at a concrete input: bin width -1
is nonpositive, series construction succeeds, and the single series
keeps the X list [0] and the raw Y values [5]. -/
theorem claim_c9_witness :
    ((mkOpts (-1) [0] 1 (-1) 0 false).hist ≤ 0)
    ∧ makeSeriesAux (mkOpts (-1) [0] 1 (-1) 0 false) "f" 1 [0] [[5]] ["0"] [0]
        = .ok [{ label := "f", xs := [0], ys := [5] }]
    ∧ ([({ label := "f", xs := [0], ys := [5] } : Series)].map Series.xs
        = [([5] : List ℚ)].map (fun _ => ([0] : List ℚ))) := by
  refine ⟨by decide, by decide, ?_⟩
  exact (claim_c9 (mkOpts (-1) [0] 1 (-1) 0 false) "f" 1 [0] [[5]] ["0"] [0]
    [{ label := "f", xs := [0], ys := [5] }] (by decide) (by decide)).1

end Dataplot

